import Mathlib

/-!
Verification of the transaction-graph module (`src/channel/tx_graph.rs`) of
the lnp-core library: a shallow embedding of the `TxGraph` store, the
commitment renderer, the HTLC linker and the graph iterator, together with
theorems settling the specification's claims about them.

External collaborators (the `bitcoin` and `wallet::psbt` libraries, and the
`Funding` / `TxType` items of this crate that are outside the provided
source) are modelled from the interface the module uses and from the
specification's description of them.
-/

namespace TxGraphSpec

/-! ## Bitcoin-library types, modelled from the interface used by the module.

A transaction id is a deterministic digest of the unsigned transaction; the
digest function itself (double SHA-256 of the serialization) lives in the
bitcoin library, so we model a txid as the serialization it digests, which
keeps it a deterministic, injective function of the transaction content. -/

abbrev Txid := List Nat

/-- `bitcoin::OutPoint`: a reference to one output of a prior transaction. -/
structure OutPoint where
  txid : Txid
  vout : Nat
deriving DecidableEq, Repr

/-- `bitcoin::TxOut`: value plus locking script. -/
structure TxOutB where
  value : Nat
  script_pubkey : List Nat
deriving DecidableEq, Repr

/-- `bitcoin::TxIn`: previous output reference, script-sig, sequence, witness. -/
structure TxInB where
  previous_output : OutPoint
  script_sig : List Nat
  sequence : Nat
  witness : List (List Nat)
deriving DecidableEq, Repr

/-- `bitcoin::Transaction`: header scalars plus input and output lists. -/
structure Transaction where
  version : Int
  lock_time : Nat
  input : List TxInB
  output : List TxOutB
deriving DecidableEq, Repr

/-- `bitcoin::TxOut::default()`: zero value, empty script. -/
def TxOutB.default : TxOutB := { value := 0, script_pubkey := [] }

/-! ## `wallet::psbt` types, modelled from the fields the module reads/writes. -/

/-- `psbt::Input`: the per-input data of a PSBT, carrying the unsigned
transaction's input fields plus signing metadata. -/
structure PInput where
  previous_outpoint : OutPoint
  script_sig : List Nat
  sequence : Nat
  witness : List (List Nat)
  witness_utxo : Option TxOutB
  witness_script : Option (List Nat)
  bip32_derivation : List (Nat × List Nat)
deriving DecidableEq, Repr

/-- `psbt::Output`: the per-output data of a PSBT. -/
structure POutput where
  amount : Nat
  script : List Nat
  witness_script : Option (List Nat)
  bip32_derivation : List (Nat × List Nat)
deriving DecidableEq, Repr

/-- `psbt::Output::default()` as produced by `Psbt::with` from a default `TxOut`. -/
def POutput.default : POutput :=
  { amount := 0, script := [], witness_script := none, bip32_derivation := [] }

/-- `Psbt`: a partially signed transaction template — the unsigned
transaction's header scalars together with per-input / per-output data. -/
structure Psbt where
  tx_version : Int
  locktime : Nat
  inputs : List PInput
  outputs : List POutput
deriving DecidableEq, Repr

/-- `Psbt::with(tx, PsbtVersion::V0)`: builds a PSBT from an unsigned
transaction; per its documented contract it fails exactly when some input
carries a non-empty script-sig or witness (those belong in the PSBT
metadata, not the unsigned transaction). -/
def Psbt.withTx (tx : Transaction) : Option Psbt :=
  if tx.input.all (fun i => i.script_sig.isEmpty && i.witness.isEmpty) then
    some
      { tx_version := tx.version
        locktime := tx.lock_time
        inputs := tx.input.map (fun i =>
          { previous_outpoint := i.previous_output
            script_sig := i.script_sig
            sequence := i.sequence
            witness := i.witness
            witness_utxo := none
            witness_script := none
            bip32_derivation := [] })
        outputs := tx.output.map (fun o =>
          { amount := o.value
            script := o.script_pubkey
            witness_script := none
            bip32_derivation := [] }) }
  else none

/-- Serialization of one input as committed to by the transaction id. -/
def serIn (i : PInput) : List Nat :=
  i.previous_outpoint.txid ++ [i.previous_outpoint.vout, i.sequence] ++ i.script_sig

/-- Serialization of one output as committed to by the transaction id. -/
def serOut (o : POutput) : List Nat :=
  o.amount :: o.script

/-- `Psbt::to_txid()`: the id of the contained unsigned transaction,
modelled as its serialization (see the note on `Txid`). -/
def Psbt.to_txid (p : Psbt) : Txid :=
  (Int.toNat (p.tx_version + 2147483648)) :: p.locktime :: p.inputs.length ::
    (p.inputs.flatMap serIn ++ p.outputs.length :: p.outputs.flatMap serOut)

/-- `bitcoin::OutPoint::from_str` applied to the string
`format!("{}:{}", txid, index)`: the `Display` of a txid is always 64 hex
characters, so the parse of `"<64 hex>:<decimal>"` succeeds exactly when
the decimal index fits in a `u32` (the `vout` field's type). -/
def outPointFromParts (txid : Txid) (idx : Nat) : Option OutPoint :=
  if idx < 4294967296 then some { txid := txid, vout := idx } else none

/-! ## Crate collaborators outside the provided source. -/

/-- Modelled from the spec: the `Funding` collaborator (`crate::channel::Funding`,
not part of the provided source) exposes `outpoint()` — the funding outpoint
used as the commitment's sole input — `psbt()` — the underlying funding
transaction template — and `output()` — the index of the funding output. -/
structure Funding where
  outpoint : OutPoint
  psbt : Psbt
  output : Nat
deriving DecidableEq, Repr

/-- Modelled from the spec: the `TxType` role enumeration
(`super::bolt::TxType`, not part of the provided source) — a small set of
well-known categories convertible to and from a 16-bit code. -/
inductive TxType where
  | funding
  | commitment
  | htlcTimeout
  | htlcSuccess
deriving DecidableEq, Repr

/-- Modelled from the spec: the 16-bit code of each role (distinct codes;
the claims do not depend on the particular numbering). -/
def TxType.toCode : TxType → Nat
  | .funding => 0
  | .commitment => 1
  | .htlcTimeout => 2
  | .htlcSuccess => 3

/-! ## Sorted association lists, modelling `std::collections::BTreeMap`.

A `BTreeMap` is an ordered map; we model it as an association list kept
sorted by strictly increasing key, which is the order its iterators
produce. -/

/-- `BTreeMap::get`. -/
def alFind {α : Type} (k : Nat) : List (Nat × α) → Option α
  | [] => none
  | (k₁, v₁) :: rest => if k = k₁ then some v₁ else alFind k rest

/-- `BTreeMap::insert` (the resulting map): place the new binding at its
ordered position, replacing an existing binding for the same key. -/
def alInsert {α : Type} (k : Nat) (v : α) : List (Nat × α) → List (Nat × α)
  | [] => [(k, v)]
  | (k₁, v₁) :: rest =>
    if k < k₁ then (k, v) :: (k₁, v₁) :: rest
    else if k = k₁ then (k, v) :: rest
    else (k₁, v₁) :: alInsert k v rest

/-- `BTreeMap::insert` (returned previous binding together with the
resulting map). -/
def alInsertR {α : Type} (k : Nat) (v : α) : List (Nat × α) → Option α × List (Nat × α)
  | [] => (none, [(k, v)])
  | (k₁, v₁) :: rest =>
    if k < k₁ then (none, (k, v) :: (k₁, v₁) :: rest)
    else if k = k₁ then (some v₁, (k, v) :: rest)
    else
      let r := alInsertR k v rest
      (r.1, (k₁, v₁) :: r.2)

/-- Keys strictly increase along the list: the invariant every `BTreeMap`
iterator state satisfies. -/
def alSorted {α : Type} (l : List (Nat × α)) : Prop :=
  l.Pairwise (fun a b => a.1 < b.1)

instance {α : Type} (l : List (Nat × α)) : Decidable (alSorted l) :=
  inferInstanceAs (Decidable (l.Pairwise _))

/-! ## The `TxGraph` aggregate. -/

/-- `TxGraph`: funding reference, commitment header scalars, commitment
outputs, and the nested (role → sequence → template) store. -/
structure TxGraph where
  funding : Funding
  cmt_version : Int
  cmt_locktime : Nat
  cmt_sequence : Nat
  cmt_outs : List POutput
  graph : List (Nat × List (Nat × Psbt))
deriving DecidableEq, Repr

/-- `TxGraph::from_funding`. -/
def TxGraph.from_funding (funding : Funding) : TxGraph :=
  { funding := funding
    cmt_version := 0
    cmt_locktime := 0
    cmt_sequence := 0
    cmt_outs := []
    graph := [] }

/-- `TxGraph::tx`. -/
def TxGraph.tx (g : TxGraph) (role : Nat) (index : Nat) : Option Psbt :=
  (alFind role g.graph).bind (fun v => alFind index v)

/-- `TxGraph::insert_tx`: `graph.entry(role).or_insert_with(default).insert(index, psbt)`,
returning the previous binding; the mutated receiver is returned alongside. -/
def TxGraph.insert_tx (g : TxGraph) (role : Nat) (index : Nat) (psbt : Psbt) :
    Option Psbt × TxGraph :=
  let m := (alFind role g.graph).getD []
  let r := alInsertR index psbt m
  (r.1, { g with graph := alInsert role r.2 g.graph })

/-- `TxGraph::len`: fold over all roles summing the per-role map sizes. -/
def TxGraph.len (g : TxGraph) : Nat :=
  g.graph.foldl (fun sum rm => sum + rm.2.length) 0

/-- `TxGraph::is_empty`: whether the number of role keys is zero. -/
def TxGraph.is_empty (g : TxGraph) : Bool :=
  g.graph.length == 0

/-- `TxGraph::last_index`: the size of the role's map, or zero when the
role is absent. -/
def TxGraph.last_index (g : TxGraph) (role : Nat) : Nat :=
  match alFind role g.graph with
  | some map => map.length
  | none => 0

/-- `TxGraph::render_cmt`. `none` models a panic: the `expect` on PSBT
construction, or indexing the funding PSBT's outputs out of range. The
final loop overwrites each of the `cmt_outs.len()` default outputs with
`cmt_outs[index]`, i.e. it replaces the output list with `cmt_outs`. -/
def TxGraph.render_cmt (g : TxGraph) : Option Psbt := do
  let cmt_tx : Transaction :=
    { version := g.cmt_version
      lock_time := g.cmt_locktime
      input := [{ previous_output := g.funding.outpoint
                  script_sig := []
                  sequence := g.cmt_sequence
                  witness := [] }]
      output := List.replicate g.cmt_outs.length TxOutB.default }
  let psbt ← Psbt.withTx cmt_tx
  let funding_output ← g.funding.psbt.outputs[g.funding.output]?
  match psbt.inputs with
  | [] => none
  | i₀ :: irest =>
    let i₀ :=
      { i₀ with
        witness_utxo := some { value := funding_output.amount
                               script_pubkey := funding_output.script }
        witness_script := funding_output.witness_script
        bip32_derivation := funding_output.bip32_derivation }
    some { psbt with inputs := i₀ :: irest, outputs := g.cmt_outs }

/-- All stored templates in ascending (role, sequence) order:
`graph.values().flat_map(|v| v.values().cloned())`. -/
def TxGraph.storeValues (g : TxGraph) : List Psbt :=
  g.graph.flatMap (fun rm => rm.2.map (fun iv => iv.2))

/-- `TxGraph::render`: the commitment transaction followed by every stored
template. -/
def TxGraph.render (g : TxGraph) : Option (List Psbt) := do
  let cmt_tx ← g.render_cmt
  pure (cmt_tx :: g.storeValues)

/-- One step of an HTLC-linking pass at output index `index`: look up the
template at `(role, index + 1)`; if present, rewrite the clone's first
input's previous-output to `(txid, index)`. `none` models a panic: the
`expect("")` on the outpoint parse, or `inputs[0]` on a template with no
inputs. -/
def linkOne (g : TxGraph) (role : Nat) (txid : Txid) (index : Nat) : Option (List Psbt) :=
  match g.tx role (index + 1) with
  | none => some []
  | some psbt =>
    match outPointFromParts txid index, psbt.inputs with
    | some prev, i₀ :: irest =>
      some [{ psbt with inputs := { i₀ with previous_outpoint := prev } :: irest }]
    | _, _ => none

/-- One HTLC-linking pass over the given output indices, in order. -/
def linkPass (g : TxGraph) (role : Nat) (txid : Txid) : List Nat → Option (List Psbt)
  | [] => some []
  | index :: rest => do
    let hd ← linkOne g role txid index
    let tl ← linkPass g role txid rest
    pure (hd ++ tl)

/-- `TxGraph::render_cmt_htlcs`: the commitment transaction, then the
timeout pass over its output indices, then the success pass. -/
def TxGraph.render_cmt_htlcs (g : TxGraph) : Option (List Psbt) := do
  let cmt_tx ← g.render_cmt
  let txid := cmt_tx.to_txid
  let timeouts ← linkPass g TxType.htlcTimeout.toCode txid (List.range cmt_tx.outputs.length)
  let successes ← linkPass g TxType.htlcSuccess.toCode txid (List.range cmt_tx.outputs.length)
  pure (cmt_tx :: (timeouts ++ successes))

/-- `TxGraph::render_cmt_htlcs` seen as a state transformer: the Rust
method takes `&self` (a shared borrow with no interior mutability), so the
receiver it returns is the receiver it was given. -/
def TxGraph.render_cmt_htlcsSt (g : TxGraph) : Option (List Psbt) × TxGraph :=
  (g.render_cmt_htlcs, g)

/-- `TxGraph::vec_mut`: the eagerly collected (role, sequence, template)
triples, in the nested maps' iteration order. -/
def TxGraph.vec_mut (g : TxGraph) : List (Nat × Nat × Psbt) :=
  g.graph.flatMap (fun rm => rm.2.map (fun iv => (rm.1, iv.1, iv.2)))

/-! ## The graph iterator. -/

/-- The cursor state of `GraphIter`. -/
structure IterSt where
  curr_role : Nat
  curr_index : Nat
deriving DecidableEq, Repr

/-- `GraphIter::next`: look up `(curr_role, curr_index)`; on failure
advance to the next role at index 0 and retry once; then increment the
index and report `(curr_role, curr_index)` — the incremented index —
alongside the found template. -/
def graphNext (g : TxGraph) (s : IterSt) : Option (Nat × Nat × Psbt) × IterSt :=
  match g.tx s.curr_role s.curr_index with
  | some t =>
    (some (s.curr_role, s.curr_index + 1, t),
     { curr_role := s.curr_role, curr_index := s.curr_index + 1 })
  | none =>
    match g.tx (s.curr_role + 1) 0 with
    | some t =>
      (some (s.curr_role + 1, 1, t), { curr_role := s.curr_role + 1, curr_index := 1 })
    | none =>
      (none, { curr_role := s.curr_role + 1, curr_index := 1 })

/-- Driving the iterator until its first `None`, with fuel. -/
def graphIterFrom (g : TxGraph) : Nat → IterSt → List (Nat × Nat × Psbt)
  | 0, _ => []
  | fuel + 1, s =>
    match graphNext g s with
    | (some t, s₁) => t :: graphIterFrom g fuel s₁
    | (none, _) => []

/-- `TxGraph::iter().collect()`: each successful step yields a distinct
stored entry, so `len + 1` steps of fuel suffice to reach the first `None`. -/
def graphIterList (g : TxGraph) : List (Nat × Nat × Psbt) :=
  graphIterFrom g (g.len + 1) { curr_role := 0, curr_index := 0 }

/-! ## Reachable states: the public mutators. -/

/-- The public mutating operations of `TxGraph`: insertion, in-place
update of a stored template (through `tx_mut` or the `vec_mut` handles),
and assignment of the public header fields. -/
inductive Op where
  | insert (role : Nat) (index : Nat) (psbt : Psbt)
  | modify (role : Nat) (index : Nat) (psbt : Psbt)
  | setVersion (v : Int)
  | setLocktime (n : Nat)
  | setSeq (n : Nat)
  | setOuts (outs : List POutput)

/-- Whether an operation is an insertion. -/
def Op.isInsert : Op → Bool
  | .insert _ _ _ => true
  | _ => false

/-- Apply one public operation. `modify` writes through a mutable
reference obtained from the store, so it can change a stored template's
content but never the key structure. -/
def applyOp (g : TxGraph) : Op → TxGraph
  | .insert role index psbt => (g.insert_tx role index psbt).2
  | .modify role index psbt =>
    { g with graph := g.graph.map (fun rm =>
        if rm.1 = role then
          (rm.1, rm.2.map (fun iv => if iv.1 = index then (iv.1, psbt) else iv))
        else rm) }
  | .setVersion v => { g with cmt_version := v }
  | .setLocktime n => { g with cmt_locktime := n }
  | .setSeq n => { g with cmt_sequence := n }
  | .setOuts outs => { g with cmt_outs := outs }

/-- Apply a sequence of public operations, oldest first. -/
def applyOps (g : TxGraph) (ops : List Op) : TxGraph :=
  ops.foldl applyOp g

/-- Well-formedness of the store: both map levels are sorted by strictly
increasing key, as every `BTreeMap` is. -/
def TxGraph.WF (g : TxGraph) : Prop :=
  alSorted g.graph ∧ ∀ rm ∈ g.graph, alSorted rm.2

instance (g : TxGraph) : Decidable g.WF :=
  inferInstanceAs (Decidable (_ ∧ _))

/-- Lexicographic order on (role, sequence) keys. -/
def lexLt (a b : Nat × Nat) : Prop :=
  a.1 < b.1 ∨ (a.1 = b.1 ∧ a.2 < b.2)

instance (a b : Nat × Nat) : Decidable (lexLt a b) :=
  inferInstanceAs (Decidable (_ ∨ _))

/-- The linking rewrite: overwrite the first input's previous-output
reference with `(txid, index)` on a clone of a stored template. -/
def relinkFirst (txid : Txid) (index : Nat) (p : Psbt) : Psbt :=
  match p.inputs with
  | [] => p
  | i₀ :: irest =>
    { p with inputs := { i₀ with previous_outpoint := { txid := txid, vout := index } } :: irest }

/-- The list of linked clones one pass appends: for each output index
`i < n` in ascending order, the relinked clone of the template stored at
`(role, i + 1)`, when present. -/
def linkedPassSpec (g : TxGraph) (role : Nat) (txid : Txid) (n : Nat) : List Psbt :=
  (List.range n).filterMap (fun i => (g.tx role (i + 1)).map (relinkFirst txid i))

/-- Every role key present in the store has a non-empty inner map: the
invariant the public mutators maintain (`insert_tx` only ever creates a
role entry by immediately inserting into it, and nothing deletes). -/
def TxGraph.Inv (g : TxGraph) : Prop :=
  ∀ rm ∈ g.graph, rm.2 ≠ []

/-! ## Concrete sample values, used to evaluate the definitions. -/

/-- A funding output of value 100000. -/
def fo₀ : POutput :=
  { amount := 100000, script := [1, 2], witness_script := none, bip32_derivation := [] }

/-- A concrete funding: outpoint `F:0` (txid `[7]`), one output. -/
def fund₀ : Funding :=
  { outpoint := { txid := [7], vout := 0 }
    psbt := { tx_version := 2, locktime := 0, inputs := [], outputs := [fo₀] }
    output := 0 }

/-- A one-input HTLC-style template. -/
def tpl₀ : Psbt :=
  { tx_version := 2
    locktime := 500000
    inputs := [{ previous_outpoint := { txid := [9], vout := 5 }
                 script_sig := []
                 sequence := 0
                 witness := []
                 witness_utxo := none
                 witness_script := none
                 bip32_derivation := [] }]
    outputs := [] }

/-- A second one-input template, distinguishable from `tpl₀`. -/
def tpl₁ : Psbt :=
  { tpl₀ with locktime := 600000 }

/-- A template with no inputs at all. -/
def tplNoIn : Psbt :=
  { tx_version := 2, locktime := 0, inputs := [], outputs := [] }

/-- A commitment output of value 40000. -/
def out40k : POutput :=
  { amount := 40000, script := [3], witness_script := none, bip32_derivation := [] }

/-- A commitment output of value 60000. -/
def out60k : POutput :=
  { amount := 60000, script := [4], witness_script := none, bip32_derivation := [] }

/-- The concrete commitment-shape graph of the spec's example: header
(version 2, locktime 0, sequence 0xFFFFFFFE), funding `F:0`, outputs of
value 40000 and 60000. -/
def gShape : TxGraph :=
  { funding := fund₀
    cmt_version := 2
    cmt_locktime := 0
    cmt_sequence := 4294967294
    cmt_outs := [out40k, out60k]
    graph := [] }

/-- `gShape` with a timeout template stored at (HtlcTimeout, 1). -/
def gLink : TxGraph :=
  (gShape.insert_tx TxType.htlcTimeout.toCode 1 tpl₀).2

/-- The commitment transaction `gLink` renders. -/
def cmtLink : Psbt :=
  (gLink.render_cmt).getD tplNoIn

/-- A populated well-formed graph: entries at (0, 4), (2, 1) and (2, 3) —
sequences not starting at zero and a role gap at 1. -/
def gMany : TxGraph :=
  (((((TxGraph.from_funding fund₀).insert_tx 2 3 tpl₀).2).insert_tx 2 1 tpl₁).2.insert_tx 0 4 tpl₀).2

/-- The commitment transaction `gMany` renders. -/
def cmtMany : Psbt :=
  (gMany.render_cmt).getD tplNoIn

/-! ## Association-list lemmas. -/

theorem alFind_alInsert_self {α : Type} (k : Nat) (v : α) (l : List (Nat × α)) :
    alFind k (alInsert k v l) = some v := by
  induction l with
  | nil => simp [alInsert, alFind]
  | cons hd tl ih =>
    obtain ⟨k₁, v₁⟩ := hd
    simp only [alInsert]
    by_cases hlt : k < k₁
    · simp [hlt, alFind]
    · by_cases heq : k = k₁
      · simp [hlt, heq, alFind]
      · simp [hlt, heq, alFind, ih]

theorem alFind_alInsert_ne {α : Type} {k k₂ : Nat} (v : α) (l : List (Nat × α))
    (h : k₂ ≠ k) : alFind k₂ (alInsert k v l) = alFind k₂ l := by
  induction l with
  | nil => simp [alInsert, alFind, h]
  | cons hd tl ih =>
    obtain ⟨k₁, v₁⟩ := hd
    simp only [alInsert]
    by_cases hlt : k < k₁
    · simp [hlt, alFind, h]
    · by_cases heq : k = k₁
      · subst heq
        simp [hlt, alFind, h]
      · simp only [if_neg hlt, if_neg heq, alFind]
        by_cases h₂ : k₂ = k₁
        · simp [h₂]
        · simp [h₂, ih]

theorem alFind_eq_none_of_lt {α : Type} {k : Nat} {l : List (Nat × α)}
    (h : ∀ e ∈ l, k < e.1) : alFind k l = none := by
  induction l with
  | nil => simp [alFind]
  | cons hd tl ih =>
    obtain ⟨k₁, v₁⟩ := hd
    have hne : k ≠ k₁ := by
      have := h (k₁, v₁) (List.mem_cons_self _ _)
      omega
    simp only [alFind, if_neg hne]
    exact ih (fun e he => h e (List.mem_cons_of_mem _ he))

theorem alInsertR_fst {α : Type} (k : Nat) (v : α) {l : List (Nat × α)}
    (hs : alSorted l) : (alInsertR k v l).1 = alFind k l := by
  induction l with
  | nil => simp [alInsertR, alFind]
  | cons hd tl ih =>
    obtain ⟨k₁, v₁⟩ := hd
    rw [alSorted, List.pairwise_cons] at hs
    obtain ⟨hhd, htl⟩ := hs
    simp only [alInsertR, alFind]
    by_cases hlt : k < k₁
    · have hne : k ≠ k₁ := Nat.ne_of_lt hlt
      have hnone : alFind k tl = none :=
        alFind_eq_none_of_lt (fun e he => Nat.lt_trans hlt (hhd e he))
      simp [hlt, hne, hnone]
    · by_cases heq : k = k₁
      · simp [hlt, heq]
      · simp [hlt, heq, ih htl]

theorem alInsertR_snd {α : Type} (k : Nat) (v : α) (l : List (Nat × α)) :
    (alInsertR k v l).2 = alInsert k v l := by
  induction l with
  | nil => simp [alInsertR, alInsert]
  | cons hd tl ih =>
    obtain ⟨k₁, v₁⟩ := hd
    simp only [alInsertR, alInsert]
    by_cases hlt : k < k₁
    · simp [hlt]
    · by_cases heq : k = k₁
      · simp [hlt, heq]
      · simp [hlt, heq, ih]

theorem alInsert_ne_nil {α : Type} (k : Nat) (v : α) (l : List (Nat × α)) :
    alInsert k v l ≠ [] := by
  cases l with
  | nil => simp [alInsert]
  | cons hd tl =>
    obtain ⟨k₁, v₁⟩ := hd
    simp only [alInsert]
    by_cases hlt : k < k₁
    · simp [hlt]
    · by_cases heq : k = k₁
      · simp [hlt, heq]
      · simp [hlt, heq]

theorem mem_alInsert {α : Type} {e : Nat × α} {k : Nat} {v : α} {l : List (Nat × α)}
    (h : e ∈ alInsert k v l) : e = (k, v) ∨ e ∈ l := by
  induction l with
  | nil => simpa [alInsert] using h
  | cons hd tl ih =>
    obtain ⟨k₁, v₁⟩ := hd
    simp only [alInsert] at h
    by_cases hlt : k < k₁
    · simp only [if_pos hlt, List.mem_cons] at h
      rcases h with h | h | h
      · exact Or.inl h
      · exact Or.inr (by simp [h])
      · exact Or.inr (List.mem_cons_of_mem _ h)
    · by_cases heq : k = k₁
      · simp only [if_neg hlt, if_pos heq, List.mem_cons] at h
        rcases h with h | h
        · exact Or.inl h
        · exact Or.inr (List.mem_cons_of_mem _ h)
      · simp only [if_neg hlt, if_neg heq, List.mem_cons] at h
        rcases h with h | h
        · exact Or.inr (by simp [h])
        · rcases ih h with h | h
          · exact Or.inl h
          · exact Or.inr (List.mem_cons_of_mem _ h)

theorem alSorted_alInsert {α : Type} {l : List (Nat × α)} (k : Nat) (v : α)
    (hs : alSorted l) : alSorted (alInsert k v l) := by
  induction l with
  | nil => simp [alInsert, alSorted]
  | cons hd tl ih =>
    obtain ⟨k₁, v₁⟩ := hd
    rw [alSorted, List.pairwise_cons] at hs
    obtain ⟨hhd, htl⟩ := hs
    simp only [alInsert]
    by_cases hlt : k < k₁
    · rw [if_pos hlt, alSorted, List.pairwise_cons]
      constructor
      · intro e he
        rcases List.mem_cons.mp he with h | h
        · simpa [h] using hlt
        · exact Nat.lt_trans hlt (hhd e h)
      · rw [alSorted] at *
        exact List.pairwise_cons.mpr ⟨hhd, htl⟩
    · by_cases heq : k = k₁
      · subst heq
        rw [if_neg hlt, if_pos rfl, alSorted, List.pairwise_cons]
        exact ⟨hhd, htl⟩
      · rw [if_neg hlt, if_neg heq, alSorted, List.pairwise_cons]
        constructor
        · intro e he
          rcases mem_alInsert he with h | h
          · have : k₁ < k := by omega
            simpa [h] using this
          · exact hhd e h
        · exact ih htl

theorem alFind_eq_some_of_mem {α : Type} {k : Nat} {v : α} {l : List (Nat × α)}
    (hs : alSorted l) (h : (k, v) ∈ l) : alFind k l = some v := by
  induction l with
  | nil => simp at h
  | cons hd tl ih =>
    obtain ⟨k₁, v₁⟩ := hd
    rw [alSorted, List.pairwise_cons] at hs
    obtain ⟨hhd, htl⟩ := hs
    rcases List.mem_cons.mp h with hmem | hmem
    · obtain ⟨h₁, h₂⟩ := Prod.mk.injEq .. ▸ hmem
      simp [alFind, h₁.symm, h₂]
    · have hne : k ≠ k₁ := by
        intro hk
        subst hk
        have h₂ := hhd (k, v) hmem
        simp at h₂
      simp [alFind, hne, ih htl hmem]

theorem mem_of_alFind_eq_some {α : Type} {k : Nat} {v : α} {l : List (Nat × α)}
    (h : alFind k l = some v) : (k, v) ∈ l := by
  induction l with
  | nil => simp [alFind] at h
  | cons hd tl ih =>
    obtain ⟨k₁, v₁⟩ := hd
    simp only [alFind] at h
    by_cases heq : k = k₁
    · simp only [if_pos heq] at h
      obtain rfl := Option.some.injEq .. ▸ h
      simp [heq]
    · simp only [if_neg heq] at h
      exact List.mem_cons_of_mem _ (ih h)

/-! ## Store lemmas. -/

theorem foldl_add_length {α β : Type} (l : List (α × List β)) (a : Nat) :
    l.foldl (fun sum rm => sum + rm.2.length) a = a + (l.map (fun rm => rm.2.length)).sum := by
  induction l generalizing a with
  | nil => simp
  | cons hd tl ih => simp [List.foldl_cons, ih, Nat.add_assoc]

theorem len_eq_sum (g : TxGraph) :
    g.len = (g.graph.map (fun rm => rm.2.length)).sum := by
  simpa using foldl_add_length g.graph 0

theorem vec_mut_length (g : TxGraph) : g.vec_mut.length = g.len := by
  rw [TxGraph.vec_mut, len_eq_sum, List.length_flatMap]
  simp only [Function.comp_def, List.length_map]

theorem storeValues_eq_map (g : TxGraph) :
    g.storeValues = g.vec_mut.map (fun t => t.2.2) := by
  rw [TxGraph.storeValues, TxGraph.vec_mut, List.map_flatMap]
  simp only [List.map_map, Function.comp_def]

theorem tx_eq_some_iff_mem_vec_mut {g : TxGraph} (hwf : g.WF) (r i : Nat) (p : Psbt) :
    g.tx r i = some p ↔ (r, i, p) ∈ g.vec_mut := by
  constructor
  · intro h
    rw [TxGraph.tx] at h
    obtain ⟨m, hm, hp⟩ := Option.bind_eq_some.mp h
    rw [TxGraph.vec_mut]
    refine List.mem_flatMap.mpr ⟨(r, m), mem_of_alFind_eq_some hm, ?_⟩
    exact List.mem_map.mpr ⟨(i, p), mem_of_alFind_eq_some hp, rfl⟩
  · intro h
    rw [TxGraph.vec_mut] at h
    obtain ⟨⟨r₁, m⟩, hm, hp⟩ := List.mem_flatMap.mp h
    obtain ⟨⟨i₁, p₁⟩, hmem, heq⟩ := List.mem_map.mp hp
    simp only [Prod.mk.injEq] at heq
    obtain ⟨h₁, h₂, h₃⟩ := heq
    rw [TxGraph.tx, ← h₁, alFind_eq_some_of_mem hwf.1 hm, Option.some_bind, ← h₂,
      alFind_eq_some_of_mem (hwf.2 (r₁, m) hm) hmem, h₃]

theorem flat_keys_sorted {outer : List (Nat × List (Nat × Psbt))}
    (h₁ : alSorted outer) (h₂ : ∀ rm ∈ outer, alSorted rm.2) :
    ((outer.flatMap (fun rm => rm.2.map (fun iv => (rm.1, iv.1, iv.2)))).map
      (fun t => (t.1, t.2.1))).Pairwise lexLt := by
  induction outer with
  | nil => simp
  | cons hd tl ih =>
    obtain ⟨r, m⟩ := hd
    rw [alSorted, List.pairwise_cons] at h₁
    obtain ⟨hhd, htl⟩ := h₁
    rw [List.flatMap_cons, List.map_append, List.pairwise_append]
    refine ⟨?_, ?_, ?_⟩
    · rw [List.map_map]
      have hm : alSorted m := h₂ (r, m) (List.mem_cons_self _ _)
      exact hm.map _ (fun a b hab => Or.inr ⟨rfl, hab⟩)
    · exact ih htl (fun rm hrm => h₂ rm (List.mem_cons_of_mem _ hrm))
    · intro a ha b hb
      obtain ⟨⟨ia, pa⟩, _, haeq⟩ := List.mem_map.mp (List.map_map .. ▸ ha)
      obtain ⟨t, htmem, hbeq⟩ := List.mem_map.mp hb
      obtain ⟨⟨r₁, m₁⟩, hm₁, htin⟩ := List.mem_flatMap.mp htmem
      obtain ⟨⟨i₁, p₁⟩, _, hteq⟩ := List.mem_map.mp htin
      have ha1 : a.1 = r := by rw [← haeq]; rfl
      have hb1 : b.1 = r₁ := by rw [← hbeq, ← hteq]
      exact Or.inl (by rw [ha1, hb1]; exact hhd (r₁, m₁) hm₁)

/-! ## Renderer lemmas. -/

theorem render_cmt_eq (g : TxGraph) (fo : POutput)
    (hv : g.funding.psbt.outputs[g.funding.output]? = some fo) :
    g.render_cmt = some
      { tx_version := g.cmt_version
        locktime := g.cmt_locktime
        inputs := [{ previous_outpoint := g.funding.outpoint
                     script_sig := []
                     sequence := g.cmt_sequence
                     witness := []
                     witness_utxo := some { value := fo.amount, script_pubkey := fo.script }
                     witness_script := fo.witness_script
                     bip32_derivation := fo.bip32_derivation }]
        outputs := g.cmt_outs } := by
  rw [TxGraph.render_cmt]
  simp [Psbt.withTx, hv]

theorem linkPass_eq_some {g : TxGraph} {role : Nat} {txid : Txid} :
    ∀ {idxs : List Nat},
    (∀ i ∈ idxs, i < 4294967296 ∧ ((g.tx role (i + 1)).all fun p => !p.inputs.isEmpty) = true) →
    linkPass g role txid idxs =
      some (idxs.filterMap (fun i => (g.tx role (i + 1)).map (relinkFirst txid i)))
  | [], _ => by simp [linkPass]
  | i :: rest, h => by
    have hi := h i (List.mem_cons_self _ _)
    have hrest := @linkPass_eq_some g role txid rest
      (fun j hj => h j (List.mem_cons_of_mem _ hj))
    rw [linkPass, List.filterMap_cons]
    cases htx : g.tx role (i + 1) with
    | none =>
      simp only [linkOne, htx, Option.some_bind, hrest, Option.some_bind]
      simp
    | some p =>
      rw [htx] at hi
      obtain ⟨hlt, hall⟩ := hi
      simp only [Option.all] at hall
      cases hin : p.inputs with
      | nil => rw [hin] at hall; simp at hall
      | cons i₀ irest =>
        simp only [linkOne, htx, outPointFromParts, if_pos hlt, hin, Option.some_bind, hrest]
        simp [relinkFirst, hin]

theorem render_cmt_htlcs_eq (g : TxGraph) (cmt : Psbt)
    (hc : g.render_cmt = some cmt)
    (hb : cmt.outputs.length ≤ 4294967296)
    (hin : ∀ role ∈ [TxType.htlcTimeout.toCode, TxType.htlcSuccess.toCode],
      ∀ i < cmt.outputs.length,
      ((g.tx role (i + 1)).all fun p => !p.inputs.isEmpty) = true) :
    g.render_cmt_htlcs = some (cmt ::
      (linkedPassSpec g TxType.htlcTimeout.toCode cmt.to_txid cmt.outputs.length ++
       linkedPassSpec g TxType.htlcSuccess.toCode cmt.to_txid cmt.outputs.length)) := by
  have ht : linkPass g TxType.htlcTimeout.toCode cmt.to_txid (List.range cmt.outputs.length) =
      some (linkedPassSpec g TxType.htlcTimeout.toCode cmt.to_txid cmt.outputs.length) := by
    rw [linkedPassSpec]
    exact linkPass_eq_some (fun i hi =>
      ⟨Nat.lt_of_lt_of_le (List.mem_range.mp hi) hb,
       hin _ (by simp) i (List.mem_range.mp hi)⟩)
  have hs : linkPass g TxType.htlcSuccess.toCode cmt.to_txid (List.range cmt.outputs.length) =
      some (linkedPassSpec g TxType.htlcSuccess.toCode cmt.to_txid cmt.outputs.length) := by
    rw [linkedPassSpec]
    exact linkPass_eq_some (fun i hi =>
      ⟨Nat.lt_of_lt_of_le (List.mem_range.mp hi) hb,
       hin _ (by simp) i (List.mem_range.mp hi)⟩)
  rw [TxGraph.render_cmt_htlcs]
  simp only [hc, ht, hs, Option.bind_eq_bind, Option.some_bind, Option.pure_def]

/-! ## Mutator lemmas. -/

theorem applyOps_cons (g : TxGraph) (op : Op) (rest : List Op) :
    applyOps g (op :: rest) = applyOps (applyOp g op) rest := by
  rw [applyOps, List.foldl_cons, applyOps]

theorem applyOp_insert_ne_nil (g : TxGraph) (r i : Nat) (p : Psbt) :
    (applyOp g (Op.insert r i p)).graph ≠ [] := by
  simp only [applyOp, TxGraph.insert_tx]
  exact alInsert_ne_nil _ _ _

theorem applyOp_graph_ne_nil {g : TxGraph} (h : g.graph ≠ []) (op : Op) :
    (applyOp g op).graph ≠ [] := by
  cases op with
  | insert r i p => exact applyOp_insert_ne_nil g r i p
  | modify r i p =>
    simp only [applyOp, ne_eq, List.map_eq_nil_iff]
    exact h
  | setVersion v => exact h
  | setLocktime n => exact h
  | setSeq n => exact h
  | setOuts outs => exact h

theorem applyOps_graph_ne_nil {g : TxGraph} (h : g.graph ≠ []) (ops : List Op) :
    (applyOps g ops).graph ≠ [] := by
  induction ops generalizing g with
  | nil => exact h
  | cons op rest ih =>
    rw [applyOps_cons]
    exact ih (applyOp_graph_ne_nil h op)

theorem applyOp_length_of_not_insert {g : TxGraph} {op : Op} (h : op.isInsert = false) :
    (applyOp g op).graph.length = g.graph.length := by
  cases op with
  | insert r i p => simp [Op.isInsert] at h
  | modify r i p => simp [applyOp]
  | setVersion v => rfl
  | setLocktime n => rfl
  | setSeq n => rfl
  | setOuts outs => rfl

theorem applyOps_length_of_no_insert {g : TxGraph} {ops : List Op}
    (h : ∀ op ∈ ops, op.isInsert = false) :
    (applyOps g ops).graph.length = g.graph.length := by
  induction ops generalizing g with
  | nil => rfl
  | cons op rest ih =>
    rw [applyOps_cons]
    rw [ih (fun o ho => h o (List.mem_cons_of_mem _ ho))]
    exact applyOp_length_of_not_insert (h op (List.mem_cons_self _ _))

theorem applyOps_ne_nil_of_insert {g : TxGraph} {ops : List Op}
    (h : ∃ op ∈ ops, op.isInsert = true) :
    (applyOps g ops).graph ≠ [] := by
  induction ops generalizing g with
  | nil => simp at h
  | cons op rest ih =>
    rw [applyOps_cons]
    obtain ⟨op₁, hmem, hop⟩ := h
    rcases List.mem_cons.mp hmem with heq | hmem₁
    · subst heq
      cases op₁ with
      | insert r i p => exact applyOps_graph_ne_nil (applyOp_insert_ne_nil g r i p) rest
      | modify r i p => simp [Op.isInsert] at hop
      | setVersion v => simp [Op.isInsert] at hop
      | setLocktime n => simp [Op.isInsert] at hop
      | setSeq n => simp [Op.isInsert] at hop
      | setOuts outs => simp [Op.isInsert] at hop
    · exact ih ⟨op₁, hmem₁, hop⟩

theorem inv_applyOp {g : TxGraph} (h : g.Inv) (op : Op) : (applyOp g op).Inv := by
  cases op with
  | insert r i p =>
    intro rm hrm
    simp only [applyOp, TxGraph.insert_tx] at hrm
    rcases mem_alInsert hrm with heq | hmem
    · rw [heq]
      simp only [alInsertR_snd]
      exact alInsert_ne_nil _ _ _
    · exact h rm hmem
  | modify r i p =>
    intro rm hrm
    simp only [applyOp] at hrm
    obtain ⟨rm₀, hrm₀, heq⟩ := List.mem_map.mp hrm
    have hne := h rm₀ hrm₀
    by_cases hr : rm₀.1 = r
    · rw [if_pos hr] at heq
      rw [← heq]
      simp only [ne_eq, List.map_eq_nil_iff]
      exact hne
    · rw [if_neg hr] at heq
      rw [← heq]
      exact hne
  | setVersion v => exact h
  | setLocktime n => exact h
  | setSeq n => exact h
  | setOuts outs => exact h

theorem inv_applyOps {g : TxGraph} (h : g.Inv) (ops : List Op) : (applyOps g ops).Inv := by
  induction ops generalizing g with
  | nil => exact h
  | cons op rest ih =>
    rw [applyOps_cons]
    exact ih (inv_applyOp h op)

theorem inv_is_empty_iff_len {g : TxGraph} (h : g.Inv) :
    g.is_empty = true ↔ g.len = 0 := by
  constructor
  · intro he
    have hnil : g.graph = [] := by
      rw [TxGraph.is_empty] at he
      simp only [beq_iff_eq] at he
      exact List.length_eq_zero.mp he
    rw [len_eq_sum, hnil]
    rfl
  · intro hl
    cases hg : g.graph with
    | nil => rw [TxGraph.is_empty, hg]; rfl
    | cons rm tl =>
      exfalso
      rw [len_eq_sum, hg] at hl
      simp only [List.map_cons, List.sum_cons] at hl
      have hne := h rm (hg ▸ List.mem_cons_self rm tl)
      have hz : rm.2.length = 0 := by omega
      exact hne (List.length_eq_zero.mp hz)

/-! ## The claims. -/

/-- C1: the claim fails on the code. With the single template stored at
(HtlcTimeout, sequence 1) the store holds one entry yet the iterator
yields nothing — two consecutive failed lookups terminate it and each
role's traversal starts at sequence 0, so a role whose sequences start at
1 is skipped entirely; and with a template stored at (0, 0) the iterator
reports sequence 1 — one greater than the stored key — so the yielded
pairs do not match the store. -/
theorem c1_iterator_incomplete :
    ((((TxGraph.from_funding fund₀).insert_tx TxType.htlcTimeout.toCode 1 tpl₀).2).len = 1 ∧
      graphIterList (((TxGraph.from_funding fund₀).insert_tx TxType.htlcTimeout.toCode 1 tpl₀).2) =
        []) ∧
    (graphIterList (((TxGraph.from_funding fund₀).insert_tx 0 0 tpl₀).2) = [(0, 1, tpl₀)] ∧
      (((TxGraph.from_funding fund₀).insert_tx 0 0 tpl₀).2).tx 0 1 = none) := by
  decide

/-- C2: `render_cmt_htlcs()` returns the rendered commitment transaction
first, then, for each output index `i` in ascending order, the clone of
the template stored at (HtlcTimeout, i + 1) when present, with the
clone's first (sole) input's previous-output overwritten to
(commitment txid, i); then the same pass for HtlcSuccess, so all linked
timeout transactions precede all linked success transactions — under the
conditions that make the accesses succeed (the commitment renders, the
output count fits a u32, every linked template has at least one input). -/
theorem c2_render_cmt_htlcs_shape (g : TxGraph) (cmt : Psbt)
    (hc : g.render_cmt = some cmt)
    (hb : cmt.outputs.length ≤ 4294967296)
    (hin : ∀ role ∈ [TxType.htlcTimeout.toCode, TxType.htlcSuccess.toCode],
      ∀ i < cmt.outputs.length,
      ((g.tx role (i + 1)).all fun p => !p.inputs.isEmpty) = true) :
    g.render_cmt_htlcs = some (cmt ::
      (linkedPassSpec g TxType.htlcTimeout.toCode cmt.to_txid cmt.outputs.length ++
       linkedPassSpec g TxType.htlcSuccess.toCode cmt.to_txid cmt.outputs.length)) :=
  render_cmt_htlcs_eq g cmt hc hb hin

/-- Witness for C2 at the spec's linking example: `gLink` stores one
timeout template at (HtlcTimeout, 1) under a two-output commitment. -/
theorem c2_witness :
    (gLink.render_cmt = some cmtLink ∧
     cmtLink.outputs.length ≤ 4294967296 ∧
     (∀ role ∈ [TxType.htlcTimeout.toCode, TxType.htlcSuccess.toCode],
       ∀ i < cmtLink.outputs.length,
       ((gLink.tx role (i + 1)).all fun p => !p.inputs.isEmpty) = true)) ∧
    gLink.render_cmt_htlcs = some (cmtLink ::
      (linkedPassSpec gLink TxType.htlcTimeout.toCode cmtLink.to_txid cmtLink.outputs.length ++
       linkedPassSpec gLink TxType.htlcSuccess.toCode cmtLink.to_txid cmtLink.outputs.length)) :=
  ⟨⟨by decide, by decide, by decide⟩,
   c2_render_cmt_htlcs_shape gLink cmtLink (by decide) (by decide) (by decide)⟩

/-- C3 fails as stated: a graph whose funding output index is valid but
which stores an HTLC-timeout template with no inputs at sequence 1 makes
`render_cmt_htlcs` abort (the `inputs[0]` access on the clone), even
though the two failure branches the claim names are unreachable. -/
theorem c3_counterexample :
    (((gShape.insert_tx TxType.htlcTimeout.toCode 1 tplNoIn).2).funding.output <
       ((gShape.insert_tx TxType.htlcTimeout.toCode 1 tplNoIn).2).funding.psbt.outputs.length) ∧
    ((gShape.insert_tx TxType.htlcTimeout.toCode 1 tplNoIn).2).render_cmt_htlcs = none := by
  decide

/-- C3 (amended): whenever the funding output index is valid, the output
count fits a u32, and every linked HTLC template has at least one input,
rendering never fails: `render_cmt` and `render_cmt_htlcs` both return a
result — the PSBT-construction branch (the renderer always produces empty
script-sig and witness) and the outpoint-parse branch (built from a
well-formed txid and in-range index) are unreachable. -/
theorem c3_render_never_fails (g : TxGraph)
    (hv : g.funding.output < g.funding.psbt.outputs.length)
    (hb : g.cmt_outs.length ≤ 4294967296)
    (hin : ∀ role ∈ [TxType.htlcTimeout.toCode, TxType.htlcSuccess.toCode],
      ∀ i < g.cmt_outs.length,
      ((g.tx role (i + 1)).all fun p => !p.inputs.isEmpty) = true) :
    g.render_cmt.isSome = true ∧ g.render_cmt_htlcs.isSome = true := by
  obtain ⟨fo, hfo⟩ : ∃ fo, g.funding.psbt.outputs[g.funding.output]? = some fo :=
    ⟨_, List.getElem?_eq_getElem hv⟩
  have hc := render_cmt_eq g fo hfo
  refine ⟨by rw [hc]; rfl, ?_⟩
  have h₂ := render_cmt_htlcs_eq g _ hc (by simpa using hb) (by simpa using hin)
  rw [h₂]
  rfl

/-- Witness for C3 (amended) at the linking example graph. -/
theorem c3_witness :
    (gLink.funding.output < gLink.funding.psbt.outputs.length ∧
     gLink.cmt_outs.length ≤ 4294967296 ∧
     (∀ role ∈ [TxType.htlcTimeout.toCode, TxType.htlcSuccess.toCode],
       ∀ i < gLink.cmt_outs.length,
       ((gLink.tx role (i + 1)).all fun p => !p.inputs.isEmpty) = true)) ∧
    (gLink.render_cmt.isSome = true ∧ gLink.render_cmt_htlcs.isSome = true) :=
  ⟨⟨by decide, by decide, by decide⟩,
   c3_render_never_fails gLink (by decide) (by decide) (by decide)⟩

/-- C4: `render_cmt_htlcs()` takes the graph by shared reference and
never mutates the store: the receiver after a call equals the receiver
before it, repeated calls return the same result, and in particular the
template stored at (HtlcTimeout, 1) — its input's previous-output
included — is unchanged. -/
theorem c4_render_cmt_htlcs_no_mutation (g : TxGraph) :
    g.render_cmt_htlcsSt.2 = g ∧
    (g.render_cmt_htlcsSt.2).render_cmt_htlcsSt.1 = g.render_cmt_htlcsSt.1 ∧
    (g.render_cmt_htlcsSt.2).tx TxType.htlcTimeout.toCode 1 =
      g.tx TxType.htlcTimeout.toCode 1 :=
  ⟨rfl, rfl, rfl⟩

/-- C5: `render()` returns exactly 1 + count() transactions: the rendered
commitment first, then every stored template across all roles in
ascending (role, sequence) order — the store's ordered flattening, whose
triples carry exactly the stored keys — with no rewriting applied. -/
theorem c5_render_shape (g : TxGraph) (cmt : Psbt) (hwf : g.WF)
    (hc : g.render_cmt = some cmt) :
    g.render = some (cmt :: g.vec_mut.map (fun t => t.2.2)) ∧
    (cmt :: g.vec_mut.map (fun t => t.2.2)).length = 1 + g.len ∧
    (∀ r i p, (r, i, p) ∈ g.vec_mut ↔ g.tx r i = some p) ∧
    ((g.vec_mut.map (fun t => (t.1, t.2.1))).Pairwise lexLt) := by
  refine ⟨?_, ?_, ?_, ?_⟩
  · rw [TxGraph.render]
    simp only [hc, Option.bind_eq_bind, Option.some_bind, Option.pure_def]
    rw [storeValues_eq_map]
  · simp only [List.length_cons, List.length_map, vec_mut_length]
    omega
  · intro r i p
    exact (tx_eq_some_iff_mem_vec_mut hwf r i p).symm
  · rw [TxGraph.vec_mut]
    exact flat_keys_sorted hwf.1 hwf.2

/-- Witness for C5 at the populated graph `gMany`. -/
theorem c5_witness :
    (gMany.WF ∧ gMany.render_cmt = some cmtMany) ∧
    (gMany.render = some (cmtMany :: gMany.vec_mut.map (fun t => t.2.2)) ∧
     (cmtMany :: gMany.vec_mut.map (fun t => t.2.2)).length = 1 + gMany.len ∧
     (∀ r i p, (r, i, p) ∈ gMany.vec_mut ↔ gMany.tx r i = some p) ∧
     ((gMany.vec_mut.map (fun t => (t.1, t.2.1))).Pairwise lexLt)) :=
  ⟨⟨by decide, by decide⟩, c5_render_shape gMany cmtMany (by decide) (by decide)⟩

/-- C6: `render_cmt()` produces a transaction with exactly one input,
whose previous-output is the funding outpoint, whose header scalars and
input sequence are the stored fields, and whose outputs are the stored
output templates in insertion order (the input also carries the funding
output's spend metadata). -/
theorem c6_render_cmt_shape (g : TxGraph) (fo : POutput)
    (hv : g.funding.psbt.outputs[g.funding.output]? = some fo) :
    g.render_cmt = some
      { tx_version := g.cmt_version
        locktime := g.cmt_locktime
        inputs := [{ previous_outpoint := g.funding.outpoint
                     script_sig := []
                     sequence := g.cmt_sequence
                     witness := []
                     witness_utxo := some { value := fo.amount, script_pubkey := fo.script }
                     witness_script := fo.witness_script
                     bip32_derivation := fo.bip32_derivation }]
        outputs := g.cmt_outs } :=
  render_cmt_eq g fo hv

/-- Witness for C6 at the spec's concrete instance: header (version 2,
locktime 0, sequence 0xFFFFFFFE), funding outpoint F:0, outputs of value
40000 and 60000, in that order. -/
theorem c6_witness :
    gShape.funding.psbt.outputs[gShape.funding.output]? = some fo₀ ∧
    gShape.render_cmt = some
      { tx_version := 2
        locktime := 0
        inputs := [{ previous_outpoint := { txid := [7], vout := 0 }
                     script_sig := []
                     sequence := 4294967294
                     witness := []
                     witness_utxo := some { value := 100000, script_pubkey := [1, 2] }
                     witness_script := none
                     bip32_derivation := [] }]
        outputs := [out40k, out60k] } :=
  ⟨by decide, c6_render_cmt_shape gShape fo₀ (by decide)⟩

/-- C7: insert has upsert semantics: `insert_tx` returns the template
previously stored at (r, s) — nothing when that slot was empty — a
following `tx(r, s)` yields the inserted template, and inserting twice at
the same slot returns the first template on the second call. -/
theorem c7_insert_upsert (g : TxGraph) (r i : Nat) (p q : Psbt) (hwf : g.WF) :
    (g.insert_tx r i p).1 = g.tx r i ∧
    ((g.insert_tx r i p).2).tx r i = some p ∧
    (((g.insert_tx r i p).2).insert_tx r i q).1 = some p := by
  have hm : alSorted ((alFind r g.graph).getD []) := by
    cases hf : alFind r g.graph with
    | none => simp [alSorted]
    | some m => simpa using hwf.2 (r, m) (mem_of_alFind_eq_some hf)
  refine ⟨?_, ?_, ?_⟩
  · rw [TxGraph.insert_tx, TxGraph.tx]
    cases hf : alFind r g.graph with
    | none => simp [alInsertR]
    | some m =>
      have hms : alSorted m := by rw [hf] at hm; simpa using hm
      simp [alInsertR_fst i p hms]
  · simp [TxGraph.insert_tx, TxGraph.tx, alInsertR_snd, alFind_alInsert_self]
  · simp only [TxGraph.insert_tx, alFind_alInsert_self, Option.getD_some, alInsertR_snd]
    rw [alInsertR_fst i q (alSorted_alInsert i p hm), alFind_alInsert_self]

/-- Witness for C7 at the populated graph `gMany`. -/
theorem c7_witness :
    gMany.WF ∧
    ((gMany.insert_tx 2 1 tpl₀).1 = gMany.tx 2 1 ∧
     ((gMany.insert_tx 2 1 tpl₀).2).tx 2 1 = some tpl₀ ∧
     (((gMany.insert_tx 2 1 tpl₀).2).insert_tx 2 1 tplNoIn).1 = some tpl₀) :=
  ⟨by decide, c7_insert_upsert gMany 2 1 tpl₀ tplNoIn (by decide)⟩

/-- C8: in every state reachable from a fresh graph through the public
operations, `is_empty()` holds iff no insert was ever performed, and also
iff `len() = 0` — even though `is_empty` inspects the number of role
keys rather than the number of stored templates. -/
theorem c8_is_empty_iff (f : Funding) (ops : List Op) :
    ((applyOps (TxGraph.from_funding f) ops).is_empty = true ↔
      ∀ op ∈ ops, op.isInsert = false) ∧
    ((applyOps (TxGraph.from_funding f) ops).is_empty = true ↔
      (applyOps (TxGraph.from_funding f) ops).len = 0) := by
  constructor
  · constructor
    · intro he op hmem
      by_contra hop
      have hop₁ : op.isInsert = true := by
        cases h : op.isInsert
        · exact absurd h hop
        · rfl
      have hne := applyOps_ne_nil_of_insert (g := TxGraph.from_funding f) ⟨op, hmem, hop₁⟩
      rw [TxGraph.is_empty] at he
      simp only [beq_iff_eq] at he
      exact hne (List.length_eq_zero.mp he)
    · intro hno
      have hlen := applyOps_length_of_no_insert (g := TxGraph.from_funding f) hno
      rw [TxGraph.is_empty, hlen]
      rfl
  · exact inv_is_empty_iff_len
      (inv_applyOps (fun rm hrm => absurd hrm (List.not_mem_nil rm)) ops)

/-- C9: `last_index(role)` is the number of entries currently stored for
the role — not the maximum sequence number — zero for an absent role, and
`len()` equals the sum over all roles of the per-role count. -/
theorem c9_count_for_role (g : TxGraph) (hwf : g.WF) :
    (∀ rm ∈ g.graph, g.last_index rm.1 = rm.2.length) ∧
    (∀ r, alFind r g.graph = none → g.last_index r = 0) ∧
    g.len = (g.graph.map (fun rm => g.last_index rm.1)).sum := by
  have h₁ : ∀ rm ∈ g.graph, g.last_index rm.1 = rm.2.length := by
    intro rm hrm
    rw [TxGraph.last_index, alFind_eq_some_of_mem hwf.1 hrm]
  refine ⟨h₁, ?_, ?_⟩
  · intro r hr
    rw [TxGraph.last_index, hr]
  · rw [len_eq_sum]
    exact congrArg List.sum (List.map_congr_left (fun rm hrm => (h₁ rm hrm).symm))

/-- Witness for C9 at the populated graph `gMany` (whose role 2 holds 2
entries with maximal sequence 3, separating count from max index). -/
theorem c9_witness :
    gMany.WF ∧
    ((∀ rm ∈ gMany.graph, gMany.last_index rm.1 = rm.2.length) ∧
     (∀ r, alFind r gMany.graph = none → gMany.last_index r = 0) ∧
     gMany.len = (gMany.graph.map (fun rm => gMany.last_index rm.1)).sum) :=
  ⟨by decide, c9_count_for_role gMany (by decide)⟩

/-- C10: `vec_mut()` returns exactly `len()` triples, one per stored
template, each carrying exactly the role and sequence under which the
template is stored (no off-by-one), in ascending (role, sequence) order —
including sequences that do not start at 0 and roles separated by gaps. -/
theorem c10_vec_mut_exact (g : TxGraph) (hwf : g.WF) :
    g.vec_mut.length = g.len ∧
    (∀ r i p, (r, i, p) ∈ g.vec_mut ↔ g.tx r i = some p) ∧
    ((g.vec_mut.map (fun t => (t.1, t.2.1))).Pairwise lexLt) := by
  refine ⟨vec_mut_length g, ?_, ?_⟩
  · intro r i p
    exact (tx_eq_some_iff_mem_vec_mut hwf r i p).symm
  · rw [TxGraph.vec_mut]
    exact flat_keys_sorted hwf.1 hwf.2

/-- Witness for C10 at `gMany`: entries at (0, 4), (2, 1) and (2, 3) —
sequences not starting at 0 and an empty role 1 between populated
roles. -/
theorem c10_witness :
    gMany.WF ∧
    (gMany.vec_mut.length = gMany.len ∧
     (∀ r i p, (r, i, p) ∈ gMany.vec_mut ↔ gMany.tx r i = some p) ∧
     ((gMany.vec_mut.map (fun t => (t.1, t.2.1))).Pairwise lexLt)) :=
  ⟨by decide, c10_vec_mut_exact gMany (by decide)⟩

end TxGraphSpec
